import Mathlib

/-!
Verification development for the model lifecycle pipeline of the
ML-Powered-Prediction-Platform repository (file `app/ml_pipeline.py`).

The Python functions are shallowly embedded as executable Lean
definitions:

* JSON cell values become the inductive type `Value`; the scalar subset
  (string, number, boolean, missing) becomes `Scalar`.  Numbers are
  modelled as rationals; the properties below never depend on machine
  float rounding.
* a row (Python dict) becomes an association list `Record`; a pandas
  `DataFrame` built from a list of dicts is modelled by its column names
  in first-appearance order (`frameColumns`) together with the per-column
  cell lists (`colValues`), absent keys reading as missing (`NaN`).
* the metadata JSON file and the model directory become the fields of
  `PState`; the fitted scikit-learn estimators are an abstract type
  parameter `M` together with fit/predict oracles, since the numeric
  optimisation inside `model.fit` is irrelevant to every property here.
-/

/-- Scalar cell value: the flat subset of JSON values.  `null` also stands
for a missing cell (pandas `NaN`). -/
inductive Scalar where
  | num (x : ℚ)
  | str (s : String)
  | bool (b : Bool)
  | null
deriving DecidableEq, Repr

/-- Arbitrary JSON cell value: a scalar, an array, or a nested object. -/
inductive Value where
  | scalar (s : Scalar)
  | arr (elems : List Value)
  | obj (fields : List (String × Value))

/-- One input row: a mapping from column name to value, in key order. -/
abbrev Record := List (String × Value)

/-- Embeds `is_flat_value` (ml_pipeline.py lines 58-64): `None` and
scalars are flat, lists and dicts are not. -/
def is_flat_value : Value → Bool
  | .scalar _ => true
  | .arr _ => false
  | .obj _ => false

/-- Key collection by iterating rows then keys, adding a key once when the
entry satisfies `p`.  With `p` constantly true this is the column set of
`pd.DataFrame(rows)` in first-appearance order; with `p` selecting
non-flat entries it is the `columns_to_drop` set of
`drop_multivalued_columns` (the Python set is modelled by a duplicate-free
list, only membership is ever consumed). -/
def addKeysIf (p : String × Value → Bool) (acc : List String) (row : Record) : List String :=
  row.foldl (fun a kv => if p kv then (if kv.1 ∈ a then a else a ++ [kv.1]) else a) acc

/-- Folds `addKeysIf` over all rows of a batch. -/
def collectKeys (p : String × Value → Bool) (data : List Record) : List String :=
  data.foldl (addKeysIf p) []

/-- Embeds the `columns_to_drop` set of `drop_multivalued_columns`
(ml_pipeline.py lines 79-85): every key that holds a non-flat value in
some row. -/
def columns_to_drop (data : List Record) : List String :=
  collectKeys (fun kv => !is_flat_value kv.2) data

/-- Embeds `drop_multivalued_columns` (ml_pipeline.py lines 67-96): every
row keeps exactly the entries whose key is outside `columns_to_drop`.
The early return for empty input coincides with the general branch. -/
def drop_multivalued_columns (data : List Record) : List Record :=
  data.map (fun row => row.filter (fun kv => !decide (kv.1 ∈ columns_to_drop data)))

/-- Column names of `pd.DataFrame(rows)`: union of the row keys in
first-appearance order. -/
def frameColumns (rows : List Record) : List String :=
  collectKeys (fun _ => true) rows

/-- Raw cell of one row under column `c` as `pd.DataFrame(rows)` collects
it, before dtype inference: `none` when the key is absent (pandas fills
the float `NaN`), `some v` for a stored cell — in particular
`some Scalar.null` for an explicit JSON null, which arrives as the Python
object `None` and is distinct from the `NaN` filler during inference.
The compound case cannot occur after `drop_multivalued_columns`, which
removes every column holding a compound value anywhere in the batch; it
reads as an explicit null. -/
def rawCellOf (r : Record) (c : String) : Option Scalar :=
  match r.lookup c with
  | some (.scalar s) => some s
  | some _ => some .null
  | none => none

/-- Raw column `c` of `pd.DataFrame(rows)`, one cell per row. -/
def rawColValues (rows : List Record) (c : String) : List (Option Scalar) :=
  rows.map (rawCellOf · c)

/-- Value view of a constructed cell: once the frame exists, an absent
key has become `NaN` and reads as missing exactly like an explicit null
does for `fillna`, `pd.to_numeric` and `astype(str)`. -/
def cellScalar (cell : Option Scalar) : Scalar :=
  cell.getD .null

/-- Cell of one row under column `c` in the constructed DataFrame. -/
def cellOf (r : Record) (c : String) : Scalar :=
  cellScalar (rawCellOf r c)

/-- Column `c` of `pd.DataFrame(rows)` as a value list, one per row. -/
def colValues (rows : List Record) (c : String) : List Scalar :=
  rows.map (cellOf · c)

-- ==========================================================
--  Membership lemmas for the key-collection folds
-- ==========================================================

theorem mem_addKeyStep {p : String × Value → Bool} {c : String} (a : List String)
    (kv : String × Value) :
    c ∈ (if p kv then (if kv.1 ∈ a then a else a ++ [kv.1]) else a) ↔
      c ∈ a ∨ (p kv = true ∧ kv.1 = c) := by
  by_cases hp : p kv = true
  · rw [if_pos hp]
    by_cases hm : kv.1 ∈ a
    · rw [if_pos hm]
      constructor
      · exact Or.inl
      · rintro (h | ⟨_, rfl⟩) <;> [exact h; exact hm]
    · rw [if_neg hm]
      rw [List.mem_append, List.mem_singleton]
      constructor
      · rintro (h | h) <;> [exact Or.inl h; exact Or.inr ⟨hp, h.symm⟩]
      · rintro (h | ⟨_, rfl⟩) <;> [exact Or.inl h; exact Or.inr rfl]
  · rw [if_neg hp]
    constructor
    · exact Or.inl
    · rintro (h | ⟨hcontra, _⟩) <;> [exact h; exact absurd hcontra hp]

theorem mem_addKeysIf {p : String × Value → Bool} {c : String} :
    ∀ (row : Record) (acc : List String),
      c ∈ addKeysIf p acc row ↔ c ∈ acc ∨ ∃ kv ∈ row, kv.1 = c ∧ p kv = true := by
  intro row
  induction row with
  | nil => intro acc; simp [addKeysIf]
  | cons kv rest ih =>
    intro acc
    show c ∈ addKeysIf p _ rest ↔ _
    rw [ih, mem_addKeyStep]
    constructor
    · rintro ((h | ⟨hp, rfl⟩) | ⟨kv2, h2, rfl, hp2⟩)
      · exact Or.inl h
      · exact Or.inr ⟨kv, List.mem_cons_self _ _, rfl, hp⟩
      · exact Or.inr ⟨kv2, List.mem_cons_of_mem _ h2, rfl, hp2⟩
    · rintro (h | ⟨kv2, h2, rfl, hp2⟩)
      · exact Or.inl (Or.inl h)
      · rcases List.mem_cons.mp h2 with rfl | h2
        · exact Or.inl (Or.inr ⟨hp2, rfl⟩)
        · exact Or.inr ⟨kv2, h2, rfl, hp2⟩

theorem mem_collectKeys {p : String × Value → Bool} {c : String} (data : List Record) :
    c ∈ collectKeys p data ↔ ∃ r ∈ data, ∃ kv ∈ r, kv.1 = c ∧ p kv = true := by
  suffices h : ∀ acc, c ∈ data.foldl (addKeysIf p) acc ↔
      c ∈ acc ∨ ∃ r ∈ data, ∃ kv ∈ r, kv.1 = c ∧ p kv = true by
    simpa using h []
  induction data with
  | nil => intro acc; simp
  | cons row rest ih =>
    intro acc
    simp only [List.foldl_cons]
    rw [ih, mem_addKeysIf]
    constructor
    · rintro (⟨h | h⟩ | ⟨r, hr, h⟩)
      · exact Or.inl h
      · exact Or.inr ⟨row, List.mem_cons_self _ _, h⟩
      · exact Or.inr ⟨r, List.mem_cons_of_mem _ hr, h⟩
    · rintro (h | ⟨r, hr, h⟩)
      · exact Or.inl (Or.inl h)
      · rcases List.mem_cons.mp hr with rfl | hr
        · exact Or.inl (Or.inr h)
        · exact Or.inr ⟨r, hr, h⟩

theorem mem_columns_to_drop {c : String} (data : List Record) :
    c ∈ columns_to_drop data ↔
      ∃ r ∈ data, ∃ kv ∈ r, kv.1 = c ∧ is_flat_value kv.2 = false := by
  rw [columns_to_drop, mem_collectKeys]
  simp [Bool.not_eq_true']

theorem mem_frameColumns {c : String} (rows : List Record) :
    c ∈ frameColumns rows ↔ ∃ r ∈ rows, ∃ kv ∈ r, kv.1 = c := by
  rw [frameColumns, mem_collectKeys]
  simp

/-- Looking a key up in a filtered association list gives the original
answer as soon as the filter keeps every entry carrying that key. -/
theorem lookup_filter_of_kept {q : String × Value → Bool} {c : String} :
    ∀ (r : Record), (∀ v, (c, v) ∈ r → q (c, v) = true) →
      (r.filter q).lookup c = r.lookup c := by
  intro r
  induction r with
  | nil => intro _; rfl
  | cons kv rest ih =>
    intro hkeep
    obtain ⟨k, v⟩ := kv
    by_cases hk : k = c
    · subst hk
      have : q (k, v) = true := hkeep v (List.mem_cons_self _ _)
      simp [List.filter, this, List.lookup]
    · have hrest : (rest.filter q).lookup c = rest.lookup c :=
        ih (fun v2 h2 => hkeep v2 (List.mem_cons_of_mem _ h2))
      by_cases hq : q (k, v) = true
      · have hck : (c == k) = false := by
          simp only [beq_eq_false_iff_ne, ne_eq]
          exact fun h => hk h.symm
        simp [List.filter, hq, List.lookup, hck, hrest]
      · have hck : (c == k) = false := by
          simp only [beq_eq_false_iff_ne, ne_eq]
          exact fun h => hk h.symm
        have hq2 : q (k, v) = false := by
          cases h : q (k, v) <;> [rfl; exact absurd h hq]
        simp [List.filter, hq2, List.lookup, hck, hrest]

-- ==========================================================
--  Numeric coercion and stringification of cells
-- ==========================================================

/-- Value of a decimal digit character. -/
def digitVal (c : Char) : ℕ := c.toNat - 48

/-- Checks a nonempty all-digit character list. -/
def isDigits (l : List Char) : Bool := decide (l ≠ []) && l.all Char.isDigit

/-- Natural number denoted by a digit list (0 for the empty list). -/
def digitsVal (l : List Char) : ℕ := l.foldl (fun a c => a * 10 + digitVal c) 0

/-- Unsigned decimal literal parse: digits with an optional decimal point.
Exotic forms accepted by `pd.to_numeric` (exponents, whitespace, inf) are
outside the modelled fragment; no property below depends on them. -/
def parseUnsigned (l : List Char) : Option ℚ :=
  match l.splitOn '.' with
  | [ip] => if isDigits ip then some ((digitsVal ip : ℚ)) else none
  | [ip, fp] =>
      if (isDigits ip || decide (ip = [])) && (isDigits fp || decide (fp = [])) &&
          !(decide (ip = []) && decide (fp = [])) then
        some ((digitsVal ip : ℚ) + (digitsVal fp : ℚ) / ((10 : ℚ) ^ fp.length))
      else none
  | _ => none

/-- Parse of a decimal string as a number, as attempted by
`pd.to_numeric(..., errors="coerce")` on one cell; `none` is the `NaN`
outcome of a failed parse. -/
def parseNumStr (s : String) : Option ℚ :=
  match s.data with
  | [] => none
  | '-' :: rest => (parseUnsigned rest).map (fun q => -q)
  | '+' :: rest => parseUnsigned rest
  | l => parseUnsigned l

/-- Cell-wise embedding of `pd.to_numeric(col, errors="coerce").fillna(0)`
(ml_pipeline.py lines 116 and 285): numbers pass through, booleans read
as 0/1, a failed string parse coerces to `NaN` and then fills to 0, and a
missing cell fills to 0. -/
def coerceNum : Scalar → ℚ
  | .num x => x
  | .bool b => if b then 1 else 0
  | .str s => (parseNumStr s).getD 0
  | .null => 0

/-- Python string rendering of a rational cell.  Integer-valued cells
render like Python ints; for non-integer cells Python renders a decimal
float literal, a spelling difference no property below depends on. -/
def ratPyStr (x : ℚ) : String :=
  if x.den = 1 then toString x.num else toString x

/-- Cell-wise embedding of `.fillna("__MISSING__").astype(str)`
(ml_pipeline.py lines 121 and 281): missing cells become the sentinel
token, other cells their Python string form. -/
def stringifyCell : Scalar → String
  | .null => "__MISSING__"
  | .str s => s
  | .bool b => if b then "True" else "False"
  | .num x => ratPyStr x

-- ==========================================================
--  Pandas dtype inference for a column
-- ==========================================================

/-- Inferred pandas dtype of a column built from Python objects. -/
inductive Dtype where
  | numericDt
  | boolDt
  | objectDt
deriving DecidableEq, Repr

/-- Checks a raw cell a numeric dtype column can hold: a number, the
`NaN` filler of an absent key, or an explicit `None` (converted to `NaN`
once numeric data is seen elsewhere in the column). -/
def cellIsNumOrMissing : Option Scalar → Bool
  | some (.num _) => true
  | some .null => true
  | none => true
  | _ => false

/-- Checks an explicit `None` cell. -/
def cellIsNone : Option Scalar → Bool
  | some .null => true
  | _ => false

/-- Checks a present boolean cell. -/
def cellIsBool : Option Scalar → Bool
  | some (.bool _) => true
  | _ => false

/-- Checks a present string cell. -/
def cellIsStr : Option Scalar → Bool
  | some (.str _) => true
  | _ => false

/-- Dtype pandas infers for a raw column.  Numeric (float64/int64) when
every cell is a number or a missing-family cell (absent-key `NaN` or
explicit `None`) and at least one cell is not an explicit `None`: the
`NaN` filler is itself a float, and `maybe_convert_objects` converts
`None` to `NaN` once numeric data is seen, but a column whose every cell
is the Python object `None` sees no numeric data and stays object (as
`pd.Series([None])` does).  Bool when every cell is a present boolean.
Object otherwise (any string, any mixture of kinds, all-`None`, or the
empty column). -/
def dtypeOf (col : List (Option Scalar)) : Dtype :=
  if col.all cellIsNumOrMissing && !col.all cellIsNone then .numericDt
  else if col.all cellIsBool && !decide (col = []) then .boolDt
  else .objectDt

/-- Embeds `pd.api.types.is_numeric_dtype` (ml_pipeline.py line 114):
true for numeric and bool dtypes, false for object. -/
def is_numeric_dtype : Dtype → Bool
  | .numericDt => true
  | .boolDt => true
  | .objectDt => false

-- ==========================================================
--  Linear order on scalars (np.unique sort order)
-- ==========================================================

/-- Sort key embedding scalars into a lexicographic product: kind tag
first, then the payload.  Within one kind this matches the Python sort
order used by `np.unique` (numbers by value, strings lexicographically,
False before True); across kinds Python either raises or compares
booleans as integers, situations the properties below avoid. -/
def Scalar.sortKey : Scalar → ℕ ×ₗ (ℚ ×ₗ (String ×ₗ Bool))
  | .num x => toLex (0, toLex (x, toLex ("", false)))
  | .str s => toLex (1, toLex (0, toLex (s, false)))
  | .bool b => toLex (2, toLex (0, toLex ("", b)))
  | .null => toLex (3, toLex (0, toLex ("", false)))

theorem Scalar.sortKey_injective : Function.Injective Scalar.sortKey := by
  intro a b h
  cases a <;> cases b <;>
    simp only [Scalar.sortKey, toLex_inj, Prod.mk.injEq] at h <;>
    simp_all

/-- Linear order on scalars induced by the sort key. -/
instance : LinearOrder Scalar := LinearOrder.lift' Scalar.sortKey Scalar.sortKey_injective

-- ==========================================================
--  LabelEncoder model
-- ==========================================================

/-- Classes list a fitted `sklearn.preprocessing.LabelEncoder` stores:
`np.unique` of the fitted values, i.e. the distinct values in ascending
sort order. -/
def leClasses {α : Type} [DecidableEq α] [LinearOrder α] (xs : List α) : List α :=
  List.insertionSort (· ≤ ·) xs.dedup

/-- Code `LabelEncoder.transform` assigns to a seen value: its index in
the sorted classes list. -/
def leCode {α : Type} [DecidableEq α] (classes : List α) (x : α) : ℤ :=
  (classes.indexOf x : ℕ)

/-- Embeds `le.fit_transform(xs)`: codes of all values against the
classes of the same list. -/
def leFitTransform {α : Type} [DecidableEq α] [LinearOrder α] (xs : List α) : List ℤ :=
  xs.map (leCode (leClasses xs))

/-- Embeds the guarded cell transform of ml_pipeline.py line 283:
`le.transform([x])[0] if x in le.classes_ else -1`.  The guard makes the
cell total: the inner transform is only consulted on seen values, so the
step never raises. -/
def encodeCell (classes : List String) (x : String) : ℤ :=
  if x ∈ classes then leCode classes x else -1

-- ==========================================================
--  preprocess_features (ml_pipeline.py lines 99-125)
-- ==========================================================

/-- Processed cells of one column under `preprocess_features`: numeric
dtype columns coerce cell-wise with missing (absent or explicit null)
filled to 0; other columns are stringified (missing to the sentinel
token) and label-encoded.  Both branches act on the constructed cell
values, where `fillna`, `pd.to_numeric` and `astype(str)` treat the
`NaN` filler and an explicit null alike. -/
def processedVals (vals : List (Option Scalar)) : List ℚ :=
  if is_numeric_dtype (dtypeOf vals) then vals.map (fun cell => coerceNum (cellScalar cell))
  else (leFitTransform (vals.map (fun cell => stringifyCell (cellScalar cell)))).map
    (fun k => (k : ℚ))

/-- Embeds `preprocess_features` over the raw column list of the feature
DataFrame: returns the processed columns, the feature column names in
order, and the encoder map holding the classes list of every
label-encoded column. -/
def preprocess_features :
    List (String × List (Option Scalar)) →
      List (String × List ℚ) × List String × List (String × List String)
  | [] => ([], [], [])
  | (c, vals) :: rest =>
      let r := preprocess_features rest
      if is_numeric_dtype (dtypeOf vals) then
        ((c, vals.map (fun cell => coerceNum (cellScalar cell))) :: r.1, c :: r.2.1, r.2.2)
      else
        ((c, processedVals vals) :: r.1, c :: r.2.1,
          (c, leClasses (vals.map (fun cell => stringifyCell (cellScalar cell)))) :: r.2.2)

-- ==========================================================
--  Problem-type selection (ml_pipeline.py lines 160-171)
-- ==========================================================

/-- Embeds the problem-type decision of `train_model`: classification when
the target dtype is object or bool, otherwise classification exactly when
the target has at most 10 distinct values.  The count runs over the
constructed numeric column, where absent-key `NaN` and explicit null have
both become `NaN`, and `y.unique()` collapses repeated values and counts
`NaN` once. -/
def problemIsClassification (y : List (Option Scalar)) : Bool :=
  if dtypeOf y = .objectDt || dtypeOf y = .boolDt then true
  else decide ((y.map cellScalar).dedup.length ≤ 10)

-- ==========================================================
--  Persistent state: metadata store and bundle files
-- ==========================================================

/-- One registry entry of the metadata store.  The optional fields are
only present for entries written by a successful training run. -/
structure MetaEntry where
  status : String
  updated_at : String
  kind : Option String := none
  feature_cols : Option (List String) := none
  target_col : Option String := none
deriving DecidableEq, Repr

/-- Serialized model bundle, one per `MODEL_DIR/{model_id}.pkl` file.
`encoder` holds the classes of the target label encoder (classification
bundles only); `feature_encoders` maps each label-encoded feature column
to its classes. -/
structure Bundle (M : Type) where
  model : M
  kind : String
  encoder : Option (List Scalar) := none
  feature_encoders : List (String × List String)
  feature_cols : List String
  target_col : String
deriving DecidableEq, Repr

/-- Persistent stores of the pipeline: the metadata JSON file and the
model directory, both keyed by model identifier. -/
structure PState (M : Type) where
  meta : List (String × MetaEntry)
  bundles : List (String × Bundle M)
deriving DecidableEq, Repr

/-- Key update of an association store: replaces the bound value or
appends a new binding, as dict assignment and file creation do. -/
def upsert {β : Type} (m : List (String × β)) (k : String) (v : β) : List (String × β) :=
  match m with
  | [] => [(k, v)]
  | (k2, v2) :: rest => if k2 = k then (k, v) :: rest else (k2, v2) :: upsert rest k v

/-- Embeds `update_status` (ml_pipeline.py lines 42-48): reads the entry
(or a fresh one), overwrites status and timestamp, writes the store
back. -/
def update_status (now : String) (meta : List (String × MetaEntry)) (model_id status : String) :
    List (String × MetaEntry) :=
  let entry := (meta.lookup model_id).getD { status := "", updated_at := "" }
  upsert meta model_id { entry with status := status, updated_at := now }

/-- Embeds `get_status` (ml_pipeline.py lines 50-52): the stored entry, or
the synthetic answer with status `not_found` when the identifier is
absent. -/
def get_status (meta : List (String × MetaEntry)) (model_id : String) : MetaEntry :=
  (meta.lookup model_id).getD { status := "not_found", updated_at := "" }

/-- State-threaded `get_status`: the store read leaves the stores
unchanged. -/
def get_statusSt {M : Type} (st : PState M) (model_id : String) : PState M × MetaEntry :=
  (st, get_status st.meta model_id)

-- ==========================================================
--  train_model (ml_pipeline.py lines 131-235)
-- ==========================================================

/-- Fit oracles standing for `LogisticRegression(max_iter=200).fit` and
`LinearRegression().fit`.  The fitted estimator is an abstract value of
type `M`; `none` stands for the fit raising (for example a single-class
logistic fit or an empty feature matrix), which the `except` block of
`train_model` absorbs. -/
structure FitFns (M : Type) where
  fitCls : List (String × List ℚ) → List ℤ → Option M
  fitReg : List (String × List ℚ) → List ℚ → Option M

/-- Return value of `train_model`: the ready dict on success, the failed
dict (with the stringified exception) on failure. -/
inductive TrainResult where
  | ok (id : String) (kind : String) (feature_cols : List String) (target_col : String)
  | failed (id : String) (error : String)
deriving DecidableEq, Repr

/-- Embeds `train_model`.  The `try` body runs the sanitizer, builds the
DataFrame, checks the target column, preprocesses the features, selects
the problem type, fits, writes the bundle file and then the ready
metadata entry; every failure (missing target, or a raising fit) lands in
the `except` block, which records status `failed` and returns normally.
`now` stands for the wall-clock timestamp. -/
def train_model {M : Type} (fns : FitFns M) (now : String) (st : PState M)
    (model_id target_col : String) (training_data : List Record) :
    PState M × TrainResult :=
  let cleaned := drop_multivalued_columns training_data
  let cols := frameColumns cleaned
  if target_col ∈ cols then
    let y := rawColValues cleaned target_col
    let xNames := cols.filter (fun c => !decide (c = target_col))
    let xCols := xNames.map (fun c => (c, rawColValues cleaned c))
    let pre := preprocess_features xCols
    let feature_cols := pre.2.1
    let feature_encoders := pre.2.2
    if problemIsClassification y then
      -- the label encoder fits the constructed column values, where the
      -- missing forms have collapsed to `NaN` on the numeric-dtype path
      -- taken here; on an object-dtype target mixing kinds Python would
      -- raise inside the caught fit, a case the fit oracle also covers
      let yVals := y.map cellScalar
      let cl := leClasses yVals
      let yEnc := yVals.map (leCode cl)
      match fns.fitCls pre.1 yEnc with
      | some m =>
          let bundles2 := upsert st.bundles model_id
            { model := m, kind := "classification", encoder := some cl,
              feature_encoders := feature_encoders, feature_cols := feature_cols,
              target_col := target_col }
          let meta2 := upsert st.meta model_id
            { status := "ready", updated_at := now, kind := some "classification",
              feature_cols := some feature_cols, target_col := some target_col }
          (⟨meta2, bundles2⟩, .ok model_id "classification" feature_cols target_col)
      | none =>
          (⟨update_status now st.meta model_id "failed", st.bundles⟩,
            .failed model_id "classification fit raised")
    else
      let yNum := y.map (fun cell => coerceNum (cellScalar cell))
      match fns.fitReg pre.1 yNum with
      | some m =>
          let bundles2 := upsert st.bundles model_id
            { model := m, kind := "regression", encoder := none,
              feature_encoders := feature_encoders, feature_cols := feature_cols,
              target_col := target_col }
          let meta2 := upsert st.meta model_id
            { status := "ready", updated_at := now, kind := some "regression",
              feature_cols := some feature_cols, target_col := some target_col }
          (⟨meta2, bundles2⟩, .ok model_id "regression" feature_cols target_col)
      | none =>
          (⟨update_status now st.meta model_id "failed", st.bundles⟩,
            .failed model_id "regression fit raised")
  else
    (⟨update_status now st.meta model_id "failed", st.bundles⟩,
      .failed model_id "Target column not found")

-- ==========================================================
--  Inference transform and predict (ml_pipeline.py lines 241-297)
-- ==========================================================

/-- One column of the inference encoding loop (ml_pipeline.py lines
277-285), threading the encoder map the way the Python objects are
threaded through the loop body: a column with a stored encoder is
stringified and cell-encoded through the guarded transform, any other
column is numerically coerced.  The loop body only reads the encoder map,
so it hands it back unchanged. -/
def applyColEncoding (encoders : List (String × List String)) (c : String)
    (raw : List Scalar) : List ℚ × List (String × List String) :=
  match encoders.lookup c with
  | some classes => (raw.map (fun v => ((encodeCell classes (stringifyCell v) : ℤ) : ℚ)), encoders)
  | none => (raw.map coerceNum, encoders)

/-- Embeds the inference-time transform of `predict` on sanitized rows:
schema columns absent from the batch are synthesized as zero-filled
columns, the frame is restricted and reordered to `feature_cols`, and each
column runs through the encoding loop.  Returns the numeric matrix (as
labelled columns) and the threaded encoder map. -/
def transformCols (feature_cols : List String) (encoders : List (String × List String))
    (rows : List Record) : List (String × List ℚ) × List (String × List String) :=
  match feature_cols with
  | [] => ([], encoders)
  | c :: rest =>
      let raw := if c ∈ frameColumns rows then colValues rows c
                 else List.replicate rows.length (Scalar.num 0)
      let cell := applyColEncoding encoders c raw
      let tail := transformCols rest cell.2 rows
      ((c, cell.1) :: tail.1, tail.2)

/-- Return value of `predict`: the not-ready error dict (which carries the
status it saw), the not-found error dict, or the prediction list. -/
inductive PredictResult where
  | notReady (status : String)
  | notFound
  | ok (model_id : String) (predictions : List Scalar)
deriving DecidableEq, Repr

/-- Decodes raw model outputs: classification bundles send each prediction
through `astype(int)` and `inverse_transform` back to the stored target
classes; regression predictions pass through as numbers.  Model outputs
are abstract here, so the truncation is modelled by the floor, which
agrees on the nonnegative integer codes a classifier emits. -/
def decodePreds (kind : String) (encoder : Option (List Scalar)) (preds : List ℚ) :
    List Scalar :=
  if kind = "classification" then
    match encoder with
    | some cl => preds.map (fun q => cl.getD q.floor.toNat .null)
    | none => preds.map Scalar.num
  else preds.map Scalar.num

/-- Embeds `predict`: reads the status (not-ready error when it is not
`ready`, whatever it is, including the synthetic `not_found`), then the
bundle file (not-found error when absent), then sanitizes the input,
replays the stored encoders and feeds the matrix to the stored model via
the `predictFn` oracle.  Neither store is ever written. -/
def predict {M : Type} (predictFn : M → List (String × List ℚ) → List ℚ)
    (st : PState M) (model_id : String) (input_data : List Record) :
    PState M × PredictResult :=
  let status := (get_status st.meta model_id).status
  if status ≠ "ready" then (st, .notReady status)
  else
    match st.bundles.lookup model_id with
    | none => (st, .notFound)
    | some b =>
        let cleaned := drop_multivalued_columns input_data
        let mat := (transformCols b.feature_cols b.feature_encoders cleaned).1
        let preds := predictFn b.model mat
        (st, .ok model_id (decodePreds b.kind b.encoder preds))

-- ==========================================================
--  Shared helper lemmas
-- ==========================================================

/-- The classes list of a fitted label encoder is strictly ascending,
carries exactly the fitted values, and codes its i-th element as i. -/
theorem leClasses_spec {α : Type} [DecidableEq α] [LinearOrder α] (xs : List α) :
    (leClasses xs).Pairwise (· < ·) ∧ (∀ a, a ∈ leClasses xs ↔ a ∈ xs) ∧
      ∀ i (h : i < (leClasses xs).length),
        (leClasses xs).indexOf ((leClasses xs).get ⟨i, h⟩) = i := by
  have hperm := List.perm_insertionSort (fun a b : α => a ≤ b) xs.dedup
  have hnd : (leClasses xs).Nodup := hperm.nodup_iff.mpr xs.nodup_dedup
  have hsorted : (leClasses xs).Sorted (· ≤ ·) :=
    List.sorted_insertionSort (fun a b : α => a ≤ b) xs.dedup
  refine ⟨(hsorted.and hnd).imp (fun h => lt_of_le_of_ne h.1 h.2), ?_, ?_⟩
  · intro a
    rw [leClasses, hperm.mem_iff, List.mem_dedup]
  · intro i h
    exact List.indexOf_getElem hnd i h

/-- Looking up the updated key after an upsert returns the new value. -/
theorem lookup_upsert_self {β : Type} (m : List (String × β)) (k : String) (v : β) :
    (upsert m k v).lookup k = some v := by
  induction m with
  | nil => simp [upsert, List.lookup]
  | cons kv rest ih =>
    obtain ⟨k2, v2⟩ := kv
    by_cases hk : k2 = k
    · subst hk
      simp [upsert, List.lookup]
    · have hkk : (k == k2) = false := by
        simp only [beq_eq_false_iff_ne, ne_eq]
        exact fun h => hk h.symm
      simp [upsert, hk, List.lookup, hkk, ih]

/-- A key outside the key set of an association list looks up to none. -/
theorem lookup_eq_none_of_not_mem_keys {β : Type} {c : String} :
    ∀ (l : List (String × β)), c ∉ l.map Prod.fst → l.lookup c = none := by
  intro l
  induction l with
  | nil => intro _; rfl
  | cons kv rest ih =>
    intro h
    simp only [List.map_cons, List.mem_cons] at h
    push_neg at h
    have hne : (c == kv.1) = false := by
      simp only [beq_eq_false_iff_ne, ne_eq]
      exact h.1
    obtain ⟨k2, v2⟩ := kv
    simp only [List.lookup, hne]
    exact ih h.2

/-- Status read back after `update_status`. -/
theorem lookup_update_status_self (now : String) (meta : List (String × MetaEntry))
    (model_id status : String) :
    ((update_status now meta model_id status).lookup model_id).map MetaEntry.status =
      some status := by
  rw [update_status, lookup_upsert_self]
  rfl

/-- The encoding loop body hands the encoder map back unchanged. -/
theorem applyColEncoding_snd (encoders : List (String × List String)) (c : String)
    (raw : List Scalar) : (applyColEncoding encoders c raw).2 = encoders := by
  rw [applyColEncoding]
  cases encoders.lookup c <;> rfl

/-- The inference transform hands the encoder map back unchanged. -/
theorem transformCols_snd (feature_cols : List String)
    (encoders : List (String × List String)) (rows : List Record) :
    (transformCols feature_cols encoders rows).2 = encoders := by
  induction feature_cols generalizing encoders with
  | nil => rfl
  | cons c rest ih =>
    rw [transformCols]
    simp only [applyColEncoding_snd]
    exact ih encoders

/-- Output column labels of the inference transform follow the schema. -/
theorem transformCols_fst (feature_cols : List String)
    (encoders : List (String × List String)) (rows : List Record) :
    (transformCols feature_cols encoders rows).1.map Prod.fst = feature_cols := by
  induction feature_cols generalizing encoders with
  | nil => rfl
  | cons c rest ih =>
    rw [transformCols]
    simp only [List.map_cons, List.cons.injEq, applyColEncoding_snd]
    exact ⟨trivial, ih _⟩

/-- Feature names returned by `preprocess_features` are the input column
names in order. -/
theorem preprocess_feature_names : ∀ (cols : List (String × List (Option Scalar))),
    (preprocess_features cols).2.1 = cols.map Prod.fst := by
  intro cols
  induction cols with
  | nil => rfl
  | cons p rest ih =>
    obtain ⟨c, vals⟩ := p
    rw [preprocess_features]
    by_cases hnum : is_numeric_dtype (dtypeOf vals) = true
    · simp [hnum, ih]
    · simp only [Bool.not_eq_true] at hnum
      simp [hnum, ih]

/-- Keys of the encoder map returned by `preprocess_features` come from
the input column names. -/
theorem preprocess_enc_keys : ∀ (cols : List (String × List (Option Scalar))),
    ∀ p ∈ (preprocess_features cols).2.2, p.1 ∈ cols.map Prod.fst := by
  intro cols
  induction cols with
  | nil => intro p h; simp [preprocess_features] at h
  | cons q rest ih =>
    obtain ⟨c, vals⟩ := q
    intro p hp
    rw [preprocess_features] at hp
    by_cases hnum : is_numeric_dtype (dtypeOf vals) = true
    · simp only [hnum, if_true] at hp
      exact List.mem_cons_of_mem _ (ih p hp)
    · simp only [Bool.not_eq_true] at hnum
      simp only [hnum, Bool.false_eq_true, if_false] at hp
      rcases List.mem_cons.mp hp with rfl | hp
      · exact List.mem_cons_self _ _
      · exact List.mem_cons_of_mem _ (ih p hp)

/-- Per-column view of `preprocess_features` under distinct column names:
the processed cells and the encoder entry of each column. -/
theorem preprocess_lookup : ∀ (cols : List (String × List (Option Scalar))) (c : String)
    (vals : List (Option Scalar)), (c, vals) ∈ cols → (cols.map Prod.fst).Nodup →
    ((preprocess_features cols).1.lookup c = some (processedVals vals) ∧
      (preprocess_features cols).2.2.lookup c =
        (if is_numeric_dtype (dtypeOf vals) then none
         else some (leClasses (vals.map (fun cell => stringifyCell (cellScalar cell)))))) := by
  intro cols
  induction cols with
  | nil => intro c vals h _; simp at h
  | cons q rest ih =>
    obtain ⟨c2, vals2⟩ := q
    intro c vals hmem hnd
    simp only [List.map_cons, List.nodup_cons] at hnd
    by_cases hc : c2 = c
    · subst hc
      have hv : vals2 = vals := by
        rcases List.mem_cons.mp hmem with heq | hmem2
        · exact ((Prod.ext_iff.mp heq).2).symm
        · exact absurd (List.mem_map_of_mem Prod.fst hmem2) hnd.1
      subst hv
      have hENone : (preprocess_features rest).2.2.lookup c2 = none := by
        refine lookup_eq_none_of_not_mem_keys _ (fun hmem3 => ?_)
        obtain ⟨p, hp, hfst⟩ := List.mem_map.mp hmem3
        exact hnd.1 (hfst ▸ preprocess_enc_keys rest p hp)
      rw [preprocess_features]
      by_cases hnum : is_numeric_dtype (dtypeOf vals2) = true
      · simp only [hnum, if_true, List.lookup, beq_self_eq_true]
        refine ⟨?_, hENone⟩
        simp [processedVals, hnum]
      · simp only [Bool.not_eq_true] at hnum
        simp [hnum, List.lookup]
    · have hmem2 : (c, vals) ∈ rest := by
        rcases List.mem_cons.mp hmem with heq | h2
        · exact absurd (congrArg Prod.fst heq).symm hc
        · exact h2
      have hne : (c == c2) = false := by
        simp only [beq_eq_false_iff_ne, ne_eq]
        exact fun h => hc h.symm
      have hr := ih c vals hmem2 hnd.2
      rw [preprocess_features]
      by_cases hnum : is_numeric_dtype (dtypeOf vals2) = true
      · simpa [hnum, List.lookup, hne] using hr
      · simp only [Bool.not_eq_true] at hnum
        simpa [hnum, List.lookup, hne] using hr

/-- Sanitization keeps the row count. -/
theorem drop_length (data : List Record) :
    (drop_multivalued_columns data).length = data.length := by
  simp [drop_multivalued_columns]

/-- Sanitization introduces no new columns. -/
theorem not_mem_frame_drop {c : String} (data : List Record)
    (h : c ∉ frameColumns data) : c ∉ frameColumns (drop_multivalued_columns data) := by
  intro hmem
  apply h
  rw [mem_frameColumns] at hmem ⊢
  obtain ⟨r2, hr2, kv, hkv, hfst⟩ := hmem
  obtain ⟨r, hr, rfl⟩ := List.mem_map.mp hr2
  exact ⟨r, hr, kv, (List.mem_filter.mp hkv).1, hfst⟩

/-- Value a zero-synthesized schema column carries into the model matrix:
plain 0 for a column without a stored encoder, otherwise the guarded
encoding of the stringified zero. -/
def zeroSynth (encoders : List (String × List String)) (c : String) : ℚ :=
  match encoders.lookup c with
  | some classes => ((encodeCell classes (stringifyCell (Scalar.num 0)) : ℤ) : ℚ)
  | none => 0

/-- A schema column absent from the batch columns comes out of the
transform as a constant column holding its zero-synthesized encoding. -/
theorem transformCols_lookup_absent :
    ∀ (feature_cols : List String) (encoders : List (String × List String))
      (rows : List Record) (c : String), c ∈ feature_cols → c ∉ frameColumns rows →
      (transformCols feature_cols encoders rows).1.lookup c =
        some (List.replicate rows.length (zeroSynth encoders c)) := by
  intro fc
  induction fc with
  | nil => intro _ _ c h _; simp at h
  | cons c2 rest ih =>
    intro encoders rows c hc habs
    rw [transformCols]
    by_cases heq : c2 = c
    · subst heq
      simp only [applyColEncoding_snd, List.lookup, beq_self_eq_true, if_neg habs]
      rw [applyColEncoding, zeroSynth]
      cases encoders.lookup c2 with
      | some classes => simp [List.map_replicate]
      | none =>
          simp only [List.map_replicate]
          rfl
    · have hne : (c == c2) = false := by
        simp only [beq_eq_false_iff_ne, ne_eq]
        exact fun h => heq h.symm
      have hc2 : c ∈ rest := by
        rcases List.mem_cons.mp hc with rfl | h2 <;> [exact absurd rfl heq; exact h2]
      simp only [applyColEncoding_snd, List.lookup, hne]
      exact ih encoders rows c hc2 habs

/-- Restricting every row to a key set covering the schema does not change
the transform output: columns outside the schema are ignored. -/
theorem transformCols_filter_eq :
    ∀ (feature_cols fcAll : List String) (encoders : List (String × List String))
      (rows : List Record), (∀ c ∈ feature_cols, c ∈ fcAll) →
      transformCols feature_cols encoders
          (rows.map (fun r => r.filter (fun kv => decide (kv.1 ∈ fcAll)))) =
        transformCols feature_cols encoders rows := by
  intro fc fcAll
  induction fc with
  | nil => intro _ _ _; rfl
  | cons c rest ih =>
    intro encoders rows hsub
    have hcAll : c ∈ fcAll := hsub c (List.mem_cons_self _ _)
    have hframe : (c ∈ frameColumns (rows.map (fun r =>
        r.filter (fun kv => decide (kv.1 ∈ fcAll))))) ↔ c ∈ frameColumns rows := by
      rw [mem_frameColumns, mem_frameColumns]
      constructor
      · rintro ⟨r2, hr2, kv, hkv, hfst⟩
        obtain ⟨r, hr, rfl⟩ := List.mem_map.mp hr2
        exact ⟨r, hr, kv, (List.mem_filter.mp hkv).1, hfst⟩
      · rintro ⟨r, hr, kv, hkv, hfst⟩
        refine ⟨r.filter (fun kv => decide (kv.1 ∈ fcAll)), List.mem_map_of_mem _ hr,
          kv, List.mem_filter.mpr ⟨hkv, ?_⟩, hfst⟩
        rw [hfst]
        exact decide_eq_true hcAll
    have hvals : colValues (rows.map (fun r =>
        r.filter (fun kv => decide (kv.1 ∈ fcAll)))) c = colValues rows c := by
      rw [colValues, colValues, List.map_map]
      refine List.map_congr_left (fun r _ => ?_)
      show cellOf (r.filter fun kv => decide (kv.1 ∈ fcAll)) c = cellOf r c
      rw [cellOf, cellOf, rawCellOf, rawCellOf, lookup_filter_of_kept]
      intro v _
      exact decide_eq_true hcAll
    rw [transformCols, transformCols]
    have hlen : (rows.map (fun r => r.filter (fun kv => decide (kv.1 ∈ fcAll)))).length =
        rows.length := List.length_map _ _
    have hraw : (if c ∈ frameColumns (rows.map (fun r =>
          r.filter (fun kv => decide (kv.1 ∈ fcAll)))) then
            colValues (rows.map (fun r => r.filter (fun kv => decide (kv.1 ∈ fcAll)))) c
          else List.replicate (rows.map (fun r =>
            r.filter (fun kv => decide (kv.1 ∈ fcAll)))).length (Scalar.num 0)) =
        (if c ∈ frameColumns rows then colValues rows c
          else List.replicate rows.length (Scalar.num 0)) := by
      by_cases hmem : c ∈ frameColumns rows
      · rw [if_pos (hframe.mpr hmem), if_pos hmem, hvals]
      · rw [if_neg (fun h => hmem (hframe.mp h)), if_neg hmem, hlen]
    rw [hraw]
    rw [ih _ rows (fun d hd => hsub d (List.mem_cons_of_mem _ hd))]

-- ==========================================================
--  Claim theorems
-- ==========================================================

/-- C3: for every batch of records, the sanitizer removes a column from
all rows exactly when at least one row of the batch holds a compound
(array/object) value in that column — including rows where that column
held a scalar — and every column holding only scalars (including
absent/null) is preserved with its values unchanged in every row. -/
theorem c3_sanitizer_exact :
    ∀ (data : List Record) (c : String),
      (drop_multivalued_columns data).length = data.length ∧
      ((∃ r ∈ data, ∃ kv ∈ r, kv.1 = c ∧ is_flat_value kv.2 = false) →
        ∀ r2 ∈ drop_multivalued_columns data, ∀ kv ∈ r2, kv.1 ≠ c) ∧
      ((∀ r ∈ data, ∀ kv ∈ r, kv.1 = c → is_flat_value kv.2 = true) →
        (drop_multivalued_columns data).map (fun r => r.lookup c) =
          data.map (fun r => r.lookup c)) := by
  intro data c
  refine ⟨drop_length data, ?_, ?_⟩
  · intro hcomp r2 hr2 kv hkv
    obtain ⟨r, _, rfl⟩ := List.mem_map.mp hr2
    have hdrop : c ∈ columns_to_drop data := (mem_columns_to_drop data).mpr hcomp
    have hkeep := (List.mem_filter.mp hkv).2
    intro hfst
    rw [hfst] at hkeep
    simp only [Bool.not_eq_true', decide_eq_false_iff_not] at hkeep
    exact hkeep hdrop
  · intro hflat
    have hnd : c ∉ columns_to_drop data := by
      intro hmem
      obtain ⟨r, hr, kv, hkv, hfst, hnf⟩ := (mem_columns_to_drop data).mp hmem
      rw [hflat r hr kv hkv hfst] at hnf
      exact Bool.true_eq_false.mp hnf
    rw [drop_multivalued_columns, List.map_map]
    refine List.map_congr_left (fun r _ => ?_)
    exact lookup_filter_of_kept r (fun v _ => by simp [hnd])

/-- Batch exercising the sanitizer: `tags` holds an array in one row and a
scalar in the other, `score` holds scalars everywhere. -/
def ex3data : List Record :=
  [[("tags", Value.arr [Value.scalar (Scalar.str "a")]),
    ("score", Value.scalar (Scalar.num 5))],
   [("tags", Value.scalar (Scalar.str "c")),
    ("score", Value.scalar (Scalar.num 7))]]

theorem c3_witness :
    (drop_multivalued_columns ex3data).map (fun r => r.lookup "score") =
      ex3data.map (fun r => r.lookup "score") :=
  (c3_sanitizer_exact ex3data "score").2.2 (by decide)

/-- C9: the inference-time transform is a pure function of the batch, the
schema and the stored encoders — equal inputs give equal matrices (hence
equal predictions downstream), and the threaded encoder map comes back
unchanged, so no call mutates encoder state. -/
theorem c9_transform_pure :
    ∀ (feature_cols : List String) (encoders : List (String × List String))
      (rows rows2 : List Record), rows = rows2 →
      ((transformCols feature_cols encoders rows).1 =
          (transformCols feature_cols encoders rows2).1 ∧
        (transformCols feature_cols encoders rows).2 = encoders) := by
  intro fc encoders rows rows2 h
  subst h
  exact ⟨rfl, transformCols_snd fc encoders rows⟩

theorem c9_witness :
    (transformCols ["a"] [("a", ["x"])] [[("a", Value.scalar (Scalar.str "y"))]]).1 =
        (transformCols ["a"] [("a", ["x"])] [[("a", Value.scalar (Scalar.str "y"))]]).1 ∧
      (transformCols ["a"] [("a", ["x"])] [[("a", Value.scalar (Scalar.str "y"))]]).2 =
        [("a", ["x"])] :=
  c9_transform_pure ["a"] [("a", ["x"])] _ _ rfl

/-- C10: `predict` and `get_status` are read-only on the persistent
stores: the metadata store and the bundle store come back unchanged on
every path, error paths included. -/
theorem c10_read_only :
    ∀ (M : Type) (f : M → List (String × List ℚ) → List ℚ) (st : PState M)
      (model_id : String) (rows : List Record),
      (predict f st model_id rows).1 = st ∧ (get_statusSt st model_id).1 = st := by
  intro M f st model_id rows
  refine ⟨?_, rfl⟩
  simp only [predict]
  split
  · rfl
  · split <;> rfl

/-- A column of explicit nulls only has object dtype: the inference sees
no numeric data, so the Python `None` objects are not converted. -/
theorem dtypeOf_all_none : ∀ (y : List (Option Scalar)), y.all cellIsNone = true →
    dtypeOf y = Dtype.objectDt := by
  intro y h
  have h2 : ¬ ((y.all cellIsBool && !decide (y = [])) = true) := by
    cases y with
    | nil => simp
    | cons v rest =>
        have hv := (List.all_eq_true.mp h) v (List.mem_cons_self _ _)
        have hb : cellIsBool v = false := by
          cases v with
          | none => simp [cellIsNone] at hv
          | some s => cases s <;> simp_all [cellIsNone, cellIsBool]
        simp [List.all_cons, hb]
  rw [dtypeOf, if_neg (by simp [h]), if_neg h2]

/-- A list whose every element equals a fixed value has at most one
distinct element. -/
theorem dedup_length_le_one {α : Type} [DecidableEq α] (a : α) :
    ∀ (l : List α), (∀ b ∈ l, b = a) → l.dedup.length ≤ 1 := by
  intro l
  induction l with
  | nil => intro _; simp
  | cons x t ih =>
      intro h
      have hx : x = a := h x (List.mem_cons_self _ _)
      have ht := ih (fun b hb => h b (List.mem_cons_of_mem _ hb))
      by_cases hmem : x ∈ t
      · rw [List.dedup_cons_of_mem hmem]
        exact ht
      · rw [List.dedup_cons_of_not_mem hmem]
        have hte : t = [] := by
          cases t with
          | nil => rfl
          | cons u v =>
              exfalso
              have hu : u = a := h u (List.mem_cons_of_mem _ (List.mem_cons_self _ _))
              exact hmem (hx ▸ hu ▸ List.mem_cons_self _ _)
        subst hte
        simp

/-- C4: the trainer selects classification when the target values are all
non-numeric (strings/booleans), classification when the target is numeric
with at most 10 distinct values, and regression when the target is
numeric with more than 10 distinct values.  Distinct values are counted
over the constructed column, where every missing form reads `NaN` once. -/
theorem c4_problem_type_selection :
    ∀ (y : List (Option Scalar)),
      (y.all (fun cell => cellIsStr cell || cellIsBool cell) = true →
        problemIsClassification y = true) ∧
      (y.all cellIsNumOrMissing = true → (y.map cellScalar).dedup.length ≤ 10 →
        problemIsClassification y = true) ∧
      (y.all cellIsNumOrMissing = true → 10 < (y.map cellScalar).dedup.length →
        problemIsClassification y = false) := by
  intro y
  have hnones : y.all cellIsNone = true → ∀ b ∈ y.map cellScalar, b = Scalar.null := by
    intro hnone b hb
    obtain ⟨cell, hc, rfl⟩ := List.mem_map.mp hb
    have hcn := (List.all_eq_true.mp hnone) cell hc
    cases cell with
    | none => simp [cellIsNone] at hcn
    | some s => cases s <;> simp_all [cellIsNone, cellScalar]
  refine ⟨?_, ?_, ?_⟩
  · intro hsb
    cases y with
    | nil => decide
    | cons v rest =>
        have hv := (List.all_eq_true.mp hsb) v (List.mem_cons_self _ _)
        have h1 : cellIsNumOrMissing v = false := by
          cases v with
          | none => simp [cellIsStr, cellIsBool] at hv
          | some s => cases s <;> simp_all [cellIsStr, cellIsBool, cellIsNumOrMissing]
        have hnall : (v :: rest).all cellIsNumOrMissing = false := by
          simp [List.all_cons, h1]
        rw [problemIsClassification]
        have hfirst : dtypeOf (v :: rest) = Dtype.objectDt ∨
            dtypeOf (v :: rest) = Dtype.boolDt := by
          rw [dtypeOf, if_neg (by simp [hnall])]
          by_cases hb : ((v :: rest).all cellIsBool && !decide (v :: rest = [])) = true
          · rw [if_pos hb]
            exact Or.inr rfl
          · rw [if_neg hb]
            exact Or.inl rfl
        rcases hfirst with h | h <;> simp [h]
  · intro hnn hle
    by_cases hnone : y.all cellIsNone = true
    · rw [problemIsClassification, dtypeOf_all_none y hnone]
      simp
    · have hneq : y.all cellIsNone = false := by
        cases hh : y.all cellIsNone <;> [rfl; exact absurd hh hnone]
      have hd : dtypeOf y = Dtype.numericDt := by
        rw [dtypeOf, if_pos (by simp [hnn, hneq])]
      rw [problemIsClassification, hd, if_neg (by decide)]
      simpa using hle
  · intro hnn hgt
    by_cases hnone : y.all cellIsNone = true
    · exfalso
      have hle1 := dedup_length_le_one Scalar.null (y.map cellScalar) (hnones hnone)
      omega
    · have hneq : y.all cellIsNone = false := by
        cases hh : y.all cellIsNone <;> [rfl; exact absurd hh hnone]
      have hd : dtypeOf y = Dtype.numericDt := by
        rw [dtypeOf, if_pos (by simp [hnn, hneq])]
      rw [problemIsClassification, hd, if_neg (by decide), decide_eq_false_iff_not]
      omega

theorem c4_witness :
    problemIsClassification [some (Scalar.str "yes"), some (Scalar.str "no")] = true :=
  (c4_problem_type_selection [some (Scalar.str "yes"), some (Scalar.str "no")]).1 (by decide)

/-- C8: a categorical value unseen at training time is encoded to the
reserved sentinel -1, which differs from the code of every trained class
(all codes are nonnegative, so the sentinel is never a newly minted
code), and the guarded cell transform is total, so it never raises. -/
theorem c8_unseen_category_sentinel :
    ∀ (classes : List String) (x : String), x ∉ classes →
      (encodeCell classes x = -1 ∧
        ∀ s ∈ classes, encodeCell classes s = leCode classes s ∧
          (0 : ℤ) ≤ leCode classes s ∧ encodeCell classes x ≠ encodeCell classes s) := by
  intro classes x hx
  have hx2 : encodeCell classes x = -1 := by rw [encodeCell, if_neg hx]
  refine ⟨hx2, fun s hs => ?_⟩
  have h1 : encodeCell classes s = leCode classes s := by rw [encodeCell, if_pos hs]
  have h2 : (0 : ℤ) ≤ leCode classes s := by
    rw [leCode]
    exact_mod_cast Nat.zero_le _
  refine ⟨h1, h2, ?_⟩
  rw [hx2, h1]
  intro hcontra
  rw [← hcontra] at h2
  norm_num at h2

theorem c8_witness : encodeCell ["a", "b"] "z" = -1 :=
  (c8_unseen_category_sentinel ["a", "b"] "z" (by decide)).1

/-- C7 (amended): `predict` answers the not-ready error, carrying the
status it read, whenever the registry status is anything other than
`ready` — including the synthetic `not_found` status of an identifier
with no registry entry — and answers the distinct not-found error exactly
when the entry reads `ready` but no bundle file is stored; the two error
outcomes are distinct constructors, never conflated. -/
theorem c7_error_taxonomy :
    ∀ (M : Type) (f : M → List (String × List ℚ) → List ℚ) (st : PState M)
      (model_id : String) (rows : List Record),
      ((get_status st.meta model_id).status ≠ "ready" →
        (predict f st model_id rows).2 =
          PredictResult.notReady (get_status st.meta model_id).status) ∧
      ((get_status st.meta model_id).status = "ready" →
        st.bundles.lookup model_id = none →
        (predict f st model_id rows).2 = PredictResult.notFound) ∧
      (∀ s, PredictResult.notReady s ≠ PredictResult.notFound) := by
  intro M f st model_id rows
  refine ⟨?_, ?_, fun s h => by cases h⟩
  · intro h
    simp only [predict]
    rw [if_pos h]
  · intro h hb
    simp only [predict]
    rw [if_neg (fun hh => hh h), hb]

/-- State with no registry entries and no bundle files. -/
def noModelState : PState Unit := ⟨[], []⟩

theorem c7_cex :
    (predict (fun (_ : Unit) _ => ([] : List ℚ)) noModelState "m" []).2 =
        PredictResult.notReady "not_found" ∧
      PredictResult.notReady "not_found" ≠ PredictResult.notFound :=
  ⟨by decide, by decide⟩

/-- State with a ready registry entry but no stored bundle. -/
def readyNoBundleState : PState Unit :=
  ⟨[("m", { status := "ready", updated_at := "t" })], []⟩

theorem c7_witness :
    (predict (fun (_ : Unit) _ => ([] : List ℚ)) readyNoBundleState "m" []).2 =
      PredictResult.notFound :=
  (c7_error_taxonomy Unit (fun _ _ => []) readyNoBundleState "m" []).2.1
    (by decide) (by decide)

/-- C5: every failed training attempt records registry status `failed`
and returns normally (the embedded `train_model` is a total function
whose failure paths return the failed result), writes no bundle, and
leaves every previously stored bundle untouched. -/
theorem c5_failed_training_frame :
    ∀ (M : Type) (fns : FitFns M) (now : String) (st : PState M)
      (model_id target_col : String) (data : List Record) (err : String),
      (train_model fns now st model_id target_col data).2 =
          TrainResult.failed model_id err →
        ((train_model fns now st model_id target_col data).1.bundles = st.bundles ∧
          ((train_model fns now st model_id target_col data).1.meta.lookup
              model_id).map MetaEntry.status = some "failed") := by
  intro M fns now st model_id target_col data err
  simp only [train_model]
  split
  · split
    · split
      · intro h
        exact absurd h (by simp)
      · intro _
        exact ⟨rfl, lookup_update_status_self now st.meta model_id "failed"⟩
    · split
      · intro h
        exact absurd h (by simp)
      · intro _
        exact ⟨rfl, lookup_update_status_self now st.meta model_id "failed"⟩
  · intro _
    exact ⟨rfl, lookup_update_status_self now st.meta model_id "failed"⟩

/-- Fit oracles that always raise. -/
def failFits : FitFns Unit := ⟨fun _ _ => none, fun _ _ => none⟩

theorem c5_witness :
    (train_model failFits "t0" noModelState "m1" "y" []).1.bundles = [] ∧
      ((train_model failFits "t0" noModelState "m1" "y" []).1.meta.lookup "m1").map
        MetaEntry.status = some "failed" :=
  c5_failed_training_frame Unit failFits "t0" noModelState "m1" "y" []
    "Target column not found" (by decide)

/-- C1 (amended): in the fit step a column is treated as numeric
pass-through iff pandas infers a numeric dtype for it — every cell is a
number or a missing cell (absent key or explicit null) with at least one
cell not an explicit null, or every cell is a present boolean of a
nonempty column — rather than whenever every non-missing cell parses as a
number; every other column, including a column of numeric strings and a
column of explicit nulls only, gets a categorical encoder built over its
stringified cells (missing stringified to the sentinel token) and applied
to the column. -/
theorem c1_encoder_fit_dispatch :
    ∀ (cols : List (String × List (Option Scalar))) (c : String)
      (vals : List (Option Scalar)),
      (c, vals) ∈ cols → (cols.map Prod.fst).Nodup →
      ((is_numeric_dtype (dtypeOf vals) = true ↔
          ((vals.all cellIsNumOrMissing = true ∧ vals.all cellIsNone = false) ∨
            (vals.all cellIsBool = true ∧ vals ≠ []))) ∧
        (is_numeric_dtype (dtypeOf vals) = true →
          ((preprocess_features cols).1.lookup c =
              some (vals.map (fun cell => coerceNum (cellScalar cell))) ∧
            (preprocess_features cols).2.2.lookup c = none)) ∧
        (is_numeric_dtype (dtypeOf vals) = false →
          ((preprocess_features cols).1.lookup c =
              some ((leFitTransform (vals.map (fun cell =>
                stringifyCell (cellScalar cell)))).map (fun k => (k : ℚ))) ∧
            (preprocess_features cols).2.2.lookup c =
              some (leClasses (vals.map (fun cell =>
                stringifyCell (cellScalar cell))))))) := by
  intro cols c vals hmem hnd
  have hlk := preprocess_lookup cols c vals hmem hnd
  refine ⟨?_, ?_, ?_⟩
  · rw [dtypeOf]
    by_cases h1 : (vals.all cellIsNumOrMissing && !vals.all cellIsNone) = true
    · rw [if_pos h1]
      simp only [is_numeric_dtype, true_iff]
      obtain ⟨ha, hb⟩ : vals.all cellIsNumOrMissing = true ∧
          (!vals.all cellIsNone) = true := by simpa using h1
      exact Or.inl ⟨ha, by simpa using hb⟩
    · rw [if_neg h1]
      by_cases h2 : (vals.all cellIsBool && !decide (vals = [])) = true
      · rw [if_pos h2]
        simp only [is_numeric_dtype, true_iff]
        obtain ⟨ha, hb⟩ : vals.all cellIsBool = true ∧
            (!decide (vals = [])) = true := by simpa using h2
        exact Or.inr ⟨ha, of_decide_eq_false (by simpa using hb)⟩
      · rw [if_neg h2]
        constructor
        · intro hcontra
          exact absurd hcontra (by simp [is_numeric_dtype])
        · rintro (⟨ha, hb⟩ | ⟨ha, hb⟩)
          · refine absurd ?_ h1
            rw [ha, hb]
            rfl
          · refine absurd ?_ h2
            rw [ha]
            simp [hb]
  · intro hnum
    refine ⟨?_, ?_⟩
    · rw [hlk.1, processedVals, if_pos hnum]
    · rw [hlk.2, if_pos hnum]
  · intro hnum
    have hnum2 : ¬ is_numeric_dtype (dtypeOf vals) = true := by simp [hnum]
    refine ⟨?_, ?_⟩
    · rw [hlk.1, processedVals, if_neg hnum2]
    · rw [hlk.2, if_neg hnum2]

theorem c1_cex :
    (parseNumStr "1").isSome = true ∧
      (preprocess_features [("c", [some (Scalar.str "1")])]).2.2.lookup "c" =
        some ["1"] ∧
      (preprocess_features [("c", [some (Scalar.str "1")])]).1.lookup "c" =
        some [(0 : ℚ)] ∧
      (0 : ℚ) ≠ 1 :=
  ⟨by decide, by decide, by decide, by decide⟩

/-- Feature frame with a numeric column holding a number and an
absent-key cell, and a column holding one explicit null only, for the fit
dispatch witness. -/
def exMixCols : List (String × List (Option Scalar)) :=
  [("n", [some (Scalar.num 1), none]), ("z", [some Scalar.null])]

theorem c1_witness :
    ((preprocess_features exMixCols).1.lookup "n" = some [(1 : ℚ), 0] ∧
      (preprocess_features exMixCols).2.2.lookup "n" = none) ∧
      (preprocess_features exMixCols).2.2.lookup "z" = some ["__MISSING__"] := by
  have hn := (c1_encoder_fit_dispatch exMixCols "n" [some (Scalar.num 1), none]
    (by decide) (by decide)).2.1 (by decide)
  have hz := (c1_encoder_fit_dispatch exMixCols "z" [some Scalar.null]
    (by decide) (by decide)).2.2 (by decide)
  refine ⟨⟨?_, hn.2⟩, ?_⟩
  · rw [hn.1]
    decide
  · rw [hz.2]
    decide

/-- C2 (amended): both the categorical feature encoders and the target
label encoder assign dense integer codes in ascending sorted order of the
distinct fitted values — the smallest distinct value gets code 0, the
next code 1, and so on — not in first-occurrence order. -/
theorem c2_label_codes_sorted :
    ∀ (xs : List String) (ys : List Scalar),
      ((leClasses xs).Pairwise (· < ·) ∧ (∀ s, s ∈ leClasses xs ↔ s ∈ xs) ∧
        ∀ i (h : i < (leClasses xs).length),
          leCode (leClasses xs) ((leClasses xs).get ⟨i, h⟩) = (i : ℤ)) ∧
      ((leClasses ys).Pairwise (· < ·) ∧ (∀ v, v ∈ leClasses ys ↔ v ∈ ys) ∧
        ∀ i (h : i < (leClasses ys).length),
          leCode (leClasses ys) ((leClasses ys).get ⟨i, h⟩) = (i : ℤ)) := by
  intro xs ys
  have h1 := leClasses_spec xs
  have h2 := leClasses_spec ys
  refine ⟨⟨h1.1, h1.2.1, fun i h => ?_⟩, ⟨h2.1, h2.2.1, fun i h => ?_⟩⟩
  · rw [leCode]
    exact_mod_cast h1.2.2 i h
  · rw [leCode]
    exact_mod_cast h2.2.2 i h

theorem c2_cex : leFitTransform ["b", "a"] = [1, 0] ∧ (1 : ℤ) ≠ 0 := by
  constructor
  · simp only [leFitTransform, leClasses, List.dedup, List.insertionSort, List.orderedInsert]
    rw [if_neg (by rw [String.le_iff_toList_le]; decide)]
    decide
  · decide

theorem c2_witness :
    leCode (leClasses ["a"]) ((leClasses ["a"]).get ⟨0, by decide⟩) = 0 ∧
      leCode (leClasses [Scalar.num 2, Scalar.num 7])
        ((leClasses [Scalar.num 2, Scalar.num 7]).get ⟨0, by decide⟩) = 0 :=
  ⟨(c2_label_codes_sorted ["a"] []).1.2.2 0 (by decide),
   (c2_label_codes_sorted [] [Scalar.num 2, Scalar.num 7]).2.2.2 0 (by decide)⟩

/-- C6 (amended): at inference time the output column order follows the
stored schema and input columns outside the schema are ignored; a schema
column entirely absent from the batch is synthesized as a zero column
before encoding, so what reaches the model is 0 for columns without a
stored encoder, but for columns with a categorical encoder it is the
guarded encoding of the stringified zero — the code of the string 0 when
that was a training class, and the sentinel -1 otherwise — not the value
zero itself. -/
theorem c6_inference_schema_alignment :
    ∀ (feature_cols : List String) (encoders : List (String × List String))
      (rows : List Record),
      ((transformCols feature_cols encoders (drop_multivalued_columns rows)).1.map
          Prod.fst = feature_cols) ∧
      (∀ c, c ∈ feature_cols → c ∉ frameColumns rows →
        (transformCols feature_cols encoders (drop_multivalued_columns rows)).1.lookup c =
          some (List.replicate rows.length (zeroSynth encoders c))) ∧
      ((transformCols feature_cols encoders ((drop_multivalued_columns rows).map
          (fun r => r.filter (fun kv => decide (kv.1 ∈ feature_cols))))).1 =
        (transformCols feature_cols encoders (drop_multivalued_columns rows)).1) := by
  intro fc encoders rows
  refine ⟨transformCols_fst fc encoders _, ?_, ?_⟩
  · intro c hc habs
    rw [transformCols_lookup_absent fc encoders _ c hc (not_mem_frame_drop rows habs)]
    rw [drop_length]
  · rw [transformCols_filter_eq fc fc encoders _ (fun d hd => hd)]

theorem c6_cex :
    (transformCols ["p"] [("p", ["a", "b"])]
        (drop_multivalued_columns [[("q", Value.scalar (Scalar.num 1))]])).1 =
      [("p", [(-1 : ℚ)])] ∧ (-1 : ℚ) ≠ 0 :=
  ⟨by decide, by decide⟩

theorem c6_witness :
    (transformCols ["n"] [] (drop_multivalued_columns
        [[("q", Value.scalar (Scalar.num 1))]])).1.lookup "n" =
      some (List.replicate 1 (zeroSynth [] "n")) :=
  (c6_inference_schema_alignment ["n"] [] [[("q", Value.scalar (Scalar.num 1))]]).2.1
    "n" (by decide) (by decide)
